import Mathlib

set_option maxHeartbeats 1000000

namespace PokemonDraft

/-- Roster entry: the code stores dictionaries of the form
`{"name": mon_name, "price": price}` (Pokemon_Draft.py line 586). -/
structure Mon where
  name : String
  price : Nat
deriving DecidableEq

/-- The session dictionary built by `create_game` (Pokemon_Draft.py lines 119-142).
Python dictionaries keyed by player name (`player_icons`, `budgets`, `rosters`)
are embedded as total functions `String → _`; keys outside `players` carry the
indicated default values and are never consulted on reachable states.  The
`lobby_players` dictionary is embedded as an insertion-ordered association list,
matching Python dict key order. -/
structure Game where
  status : String
  starting_budget : Nat
  max_slots : Nat
  lobby_players : List (String × String)
  players : List String
  player_icons : String → String
  budgets : String → Nat
  rosters : String → List Mon
  current_nominator_index : Nat
  current_pokemon : Option String
  current_bid : Option Nat
  current_bidder : Option String
  log : List String
  draft_finished : Bool

/-- Pointwise update of a name-keyed map, modelling `d[k] = v` on a Python dict. -/
def upd {α : Type} (f : String → α) (k : String) (v : α) : String → α :=
  fun x => if x = k then v else f x

theorem upd_same {α : Type} (f : String → α) (k : String) (v : α) : upd f k v k = v := by
  simp [upd]

theorem upd_ne {α : Type} (f : String → α) (k : String) (v : α) (x : String) (h : x ≠ k) :
    upd f k v x = f x := by
  simp [upd, h]

/-- Python's `str.strip()` (and the semantics of `String.trim`): drop leading
and trailing whitespace.  Defined by structural recursion over the character
list so that concrete instances evaluate. -/
def pyStrip (s : String) : String :=
  String.mk (((s.data.dropWhile Char.isWhitespace).reverse.dropWhile Char.isWhitespace).reverse)

/-- The failure taxonomy of the draft operations (the spec's §7 labels for the
code's rejection branches). -/
inductive DraftError where
  | InsufficientPlayers
  | EmptyName
  | ItemAlreadyAwarded
  | NoActiveAuction
  | BelowMinimumRaise
  | BadIncrement
  | InsufficientFunds
  | BudgetViolation
  | CapacityViolation
deriving DecidableEq

/-- `create_game` (Pokemon_Draft.py lines 119-142). -/
def create_game (starting_budget max_slots : Nat) : Game :=
  { status := "lobby"
    starting_budget := starting_budget
    max_slots := max_slots
    lobby_players := []
    players := []
    player_icons := fun _ => ""
    budgets := fun _ => 0
    rosters := fun _ => []
    current_nominator_index := 0
    current_pokemon := none
    current_bid := none
    current_bidder := none
    log := []
    draft_finished := false }

/-- The lobby-join mutation `game["lobby_players"][player_name] = icon`
(Pokemon_Draft.py line 291); its guards (lobby status, non-blank name,
name not taken) appear on the `Step.join` rule. -/
def join_game (g : Game) (name icon : String) : Game :=
  { g with lobby_players := g.lobby_players ++ [(name, icon)] }

/-- `start_draft` (Pokemon_Draft.py lines 145-166).  The Python function returns
`False` (no mutation) with fewer than 2 lobby players; we render that as the
spec's `InsufficientPlayers` error. -/
def start_draft (g : Game) : Except DraftError Game :=
  if g.lobby_players.length < 2 then Except.error DraftError.InsufficientPlayers
  else
    Except.ok
      { g with
        players := g.lobby_players.map Prod.fst
        player_icons := fun n =>
          (((g.lobby_players.find? (fun pr => pr.fst == n)).map Prod.snd).getD "")
        budgets := fun _ => g.starting_budget
        rosters := fun _ => []
        current_nominator_index := 0
        current_pokemon := none
        current_bid := none
        current_bidder := none
        log := []
        draft_finished := false
        status := "draft" }

/-- Eligibility test used by `advance_nominator` (Pokemon_Draft.py line 181):
`len(rosters[p]) < max_slots and budgets[p] >= 50`. -/
def eligibleB (g : Game) (p : String) : Bool :=
  decide ((g.rosters p).length < g.max_slots) && decide (50 ≤ g.budgets p)

/-- The loop body of `advance_nominator` (Pokemon_Draft.py lines 176-183):
repeatedly step `index := (index + 1) % len(players)` and stop at the first
eligible player; the fuel is `len(players)`.  Returns the final index and
whether an eligible player was found. -/
def advance_loop (g : Game) : Nat → Nat → Nat × Bool
  | idx, 0 => (idx, false)
  | idx, fuel + 1 =>
    let idx1 := (idx + 1) % g.players.length
    if eligibleB g (g.players.getD idx1 "") then (idx1, true)
    else advance_loop g idx1 fuel

/-- `advance_nominator` (Pokemon_Draft.py lines 169-185).  When no player is
eligible after a full cycle the code sets `draft_finished = True` (its
representation of the Finished status). -/
def advance_nominator (g : Game) : Game :=
  let r := advance_loop g g.current_nominator_index g.players.length
  if r.snd then { g with current_nominator_index := r.fst }
  else { g with current_nominator_index := r.fst, draft_finished := true }

/-- `everyone_full` (Pokemon_Draft.py lines 188-191). -/
def everyone_full (g : Game) : Bool :=
  g.players.all (fun p => decide (g.max_slots ≤ (g.rosters p).length))

/-- The draft view's finished test `game["draft_finished"] or everyone_full(game)`
(Pokemon_Draft.py line 422), which gates every draft-phase action. -/
def finishedB (g : Game) : Bool :=
  g.draft_finished || everyone_full g

/-- `players[game["current_nominator_index"]]` (Pokemon_Draft.py line 425). -/
def currentNominator (g : Game) : String :=
  g.players.getD g.current_nominator_index ""

/-- Log line of a nomination (Pokemon_Draft.py lines 514-517). -/
def nominateLog (icon nominator mon : String) (opening : Nat) : String :=
  s!"{icon} {nominator} nominated {mon} with opening bid ${opening}."

/-- Log line of a bid (Pokemon_Draft.py lines 566-569). -/
def bidLog (icon bidder : String) (amount : Nat) (mon : String) : String :=
  s!"{icon} {bidder} bids ${amount} on {mon}."

/-- Log line of an award (Pokemon_Draft.py lines 587-590). -/
def closeLog (mon icon winner : String) (price : Nat) : String :=
  s!"{mon} goes to {icon} {winner} for ${price}."

/-- The Nominate button handler (Pokemon_Draft.py lines 503-518): strip the
entered name, reject a blank one, otherwise open the auction with
`opening_bid = min(50, budgets[current_nominator])` and the nominator as
current bidder, appending one log entry. -/
def nominate (g : Game) (nominated_mon : String) : Except DraftError Game :=
  let mon_name := pyStrip nominated_mon
  if mon_name = "" then Except.error DraftError.EmptyName
  else
    let current_nominator := currentNominator g
    let icon := g.player_icons current_nominator
    let opening_bid := min 50 (g.budgets current_nominator)
    Except.ok
      { g with
        current_pokemon := some mon_name
        current_bid := some opening_bid
        current_bidder := some current_nominator
        log := g.log ++ [nominateLog icon current_nominator mon_name opening_bid] }

/-- The bidding control (Pokemon_Draft.py lines 546-570).  The UI offers exactly
`allowed_bids = range(min_bid, budgets[bidder] + 1, 25)` with
`min_bid = current_bid + 25`, after showing a not-enough-money notice when
`budgets[bidder] < min_bid`; an amount is accepted iff it lies in that range.
The rejection branches carry the spec's §7 labels. -/
def bid (g : Game) (bidder : String) (amount : Nat) : Except DraftError Game :=
  match g.current_bid with
  | none => Except.error DraftError.NoActiveAuction
  | some current_bid =>
    let min_bid := current_bid + 25
    let max_allowed := g.budgets bidder
    if max_allowed < min_bid then Except.error DraftError.InsufficientFunds
    else if amount < min_bid then Except.error DraftError.BelowMinimumRaise
    else if max_allowed < amount then Except.error DraftError.InsufficientFunds
    else if (amount - min_bid) % 25 ≠ 0 then Except.error DraftError.BadIncrement
    else
      let icon := g.player_icons bidder
      let mon := (g.current_pokemon).getD ""
      Except.ok
        { g with
          current_bid := some amount
          current_bidder := some bidder
          log := g.log ++ [bidLog icon bidder amount mon] }

/-- The successful-award mutation inside the Close handler
(Pokemon_Draft.py lines 585-593): deduct the price, append the roster entry,
append the log line, clear the auction fields. -/
def awardState (g : Game) (mon_name : String) (price : Nat) (winner : String) : Game :=
  { g with
    budgets := upd g.budgets winner (g.budgets winner - price)
    rosters := upd g.rosters winner (g.rosters winner ++ [{ name := mon_name, price := price }])
    log := g.log ++ [closeLog mon_name (g.player_icons winner) winner price]
    current_pokemon := none
    current_bid := none
    current_bidder := none }

/-- The Close-bidding button handler (Pokemon_Draft.py lines 572-600): read the
winner and price from the auction fields, fail (with no mutation) when the
winner cannot afford the price or has a full roster, otherwise award, then
finish the draft at once if everyone is full, else advance the nominator. -/
def close (g : Game) : Except DraftError Game :=
  match g.current_pokemon, g.current_bid, g.current_bidder with
  | some mon_name, some price, some winner =>
    if g.budgets winner < price then Except.error DraftError.BudgetViolation
    else if g.max_slots ≤ (g.rosters winner).length then Except.error DraftError.CapacityViolation
    else
      let g1 := awardState g mon_name price winner
      if everyone_full g1 then Except.ok { g1 with draft_finished := true }
      else Except.ok (advance_nominator g1)
  | _, _, _ => Except.error DraftError.NoActiveAuction

/-- Total cost of a participant's roster. -/
def rosterCost (g : Game) (p : String) : Nat :=
  ((g.rosters p).map Mon.price).sum

/-- The set of already-drafted names, `{mon["name"] for mons in rosters.values()
for mon in mons}` (Pokemon_Draft.py lines 479-483), as a list over the players. -/
def draftedNames (g : Game) : List String :=
  g.players.flatMap (fun p => (g.rosters p).map Mon.name)

/-- Catalog constraint on a nomination (Pokemon_Draft.py lines 478-501): with a
non-empty Pokémon pool the select box offers only pool entries not already
drafted; with an empty pool the free-text input accepts any string. -/
def nominate_ok (pool : List String) (g : Game) (s : String) : Prop :=
  pool = [] ∨ (s ∈ pool ∧ s ∉ draftedNames g)

/-- Extract the game from a successful operation result (for concrete traces). -/
def exOk (d : Game) : Except DraftError Game → Game
  | Except.ok g => g
  | Except.error _ => d

/-- Whether an operation result is a success. -/
def exceptOk : Except DraftError Game → Bool
  | Except.ok _ => true
  | Except.error _ => false

/-- One mutating operation of the app, with the guards under which the UI lets
it fire: `join`/`start` from the lobby view (Pokemon_Draft.py lines 273-298 and
338-344), and — on a non-lobby, non-finished session (lines 422, 666-669) — the
auto-advance over an ineligible nominator (lines 462-475), a nomination
(lines 477-518, constrained by the catalog when the `pool` is non-empty), a bid
by a listed player (lines 537-570), and closing the auction (lines 572-600). -/
inductive Step (pool : List String) : Game → Game → Prop where
  | join (g : Game) (name icon : String) :
      g.status = "lobby" →
      pyStrip name ≠ "" →
      name ∉ g.lobby_players.map Prod.fst →
      Step pool g (join_game g name icon)
  | start (g g' : Game) :
      g.status = "lobby" →
      start_draft g = Except.ok g' →
      Step pool g g'
  | skip (g : Game) :
      g.status ≠ "lobby" →
      finishedB g = false →
      g.current_pokemon = none →
      eligibleB g (currentNominator g) = false →
      Step pool g (advance_nominator g)
  | nom (g g' : Game) (s : String) :
      g.status ≠ "lobby" →
      finishedB g = false →
      g.current_pokemon = none →
      eligibleB g (currentNominator g) = true →
      nominate_ok pool g s →
      nominate g s = Except.ok g' →
      Step pool g g'
  | raise (g g' : Game) (bidder : String) (amount : Nat) :
      g.status ≠ "lobby" →
      finishedB g = false →
      bidder ∈ g.players →
      bid g bidder amount = Except.ok g' →
      Step pool g g'
  | closeA (g g' : Game) :
      g.status ≠ "lobby" →
      finishedB g = false →
      close g = Except.ok g' →
      Step pool g g'

/-- States reachable from a freshly created game through app operations. -/
inductive Reachable (pool : List String) : Game → Prop where
  | init (sb ms : Nat) : Reachable pool (create_game sb ms)
  | step {g g' : Game} : Reachable pool g → Step pool g g' → Reachable pool g'

/-- Field-wise inversion of a successful `bid`. -/
theorem bid_ok_inv {g g' : Game} {bidder : String} {amount : Nat}
    (h : bid g bidder amount = Except.ok g') :
    ∃ cb, g.current_bid = some cb ∧
      cb + 25 ≤ amount ∧ amount ≤ g.budgets bidder ∧ (amount - (cb + 25)) % 25 = 0 ∧
      g'.current_bid = some amount ∧ g'.current_bidder = some bidder ∧
      g'.current_pokemon = g.current_pokemon ∧
      g'.budgets = g.budgets ∧ g'.rosters = g.rosters ∧
      g'.players = g.players ∧ g'.status = g.status ∧
      g'.starting_budget = g.starting_budget ∧ g'.max_slots = g.max_slots ∧
      g'.current_nominator_index = g.current_nominator_index ∧
      g'.draft_finished = g.draft_finished ∧
      g'.lobby_players = g.lobby_players ∧ g'.player_icons = g.player_icons ∧
      g'.log.length = g.log.length + 1 := by
  unfold bid at h
  cases hcb : g.current_bid with
  | none => rw [hcb] at h; exact Except.noConfusion h
  | some cb =>
    rw [hcb] at h
    simp only at h
    split_ifs at h with h1 h2 h3 h4
    refine ⟨cb, rfl, by omega, by omega, not_ne_iff.mp h4, ?_⟩
    injection h with h5
    subst h5
    simp

/-- Field-wise inversion of a successful `nominate`. -/
theorem nominate_ok_inv {g g' : Game} {s : String}
    (h : nominate g s = Except.ok g') :
    pyStrip s ≠ "" ∧
    g'.current_pokemon = some (pyStrip s) ∧
    g'.current_bid = some (min 50 (g.budgets (currentNominator g))) ∧
    g'.current_bidder = some (currentNominator g) ∧
    g'.budgets = g.budgets ∧ g'.rosters = g.rosters ∧
    g'.players = g.players ∧ g'.status = g.status ∧
    g'.starting_budget = g.starting_budget ∧ g'.max_slots = g.max_slots ∧
    g'.current_nominator_index = g.current_nominator_index ∧
    g'.draft_finished = g.draft_finished ∧
    g'.lobby_players = g.lobby_players ∧ g'.player_icons = g.player_icons ∧
    g'.log.length = g.log.length + 1 := by
  unfold nominate at h
  simp only at h
  split_ifs at h with h1
  refine ⟨h1, ?_⟩
  injection h with h5
  subst h5
  simp

/-- `advance_nominator` touches only `current_nominator_index` and
`draft_finished`. -/
theorem advance_frame (g : Game) :
    (advance_nominator g).budgets = g.budgets ∧
    (advance_nominator g).rosters = g.rosters ∧
    (advance_nominator g).players = g.players ∧
    (advance_nominator g).status = g.status ∧
    (advance_nominator g).starting_budget = g.starting_budget ∧
    (advance_nominator g).max_slots = g.max_slots ∧
    (advance_nominator g).current_pokemon = g.current_pokemon ∧
    (advance_nominator g).current_bid = g.current_bid ∧
    (advance_nominator g).current_bidder = g.current_bidder ∧
    (advance_nominator g).lobby_players = g.lobby_players ∧
    (advance_nominator g).player_icons = g.player_icons ∧
    (advance_nominator g).log = g.log := by
  unfold advance_nominator
  by_cases hr : (advance_loop g g.current_nominator_index g.players.length).snd = true <;>
    simp [hr]

/-- Structural inversion of a successful `close`. -/
theorem close_ok_inv {g g' : Game} (h : close g = Except.ok g') :
    ∃ m price w, g.current_pokemon = some m ∧ g.current_bid = some price ∧
      g.current_bidder = some w ∧
      price ≤ g.budgets w ∧ (g.rosters w).length < g.max_slots ∧
      g' = (if everyone_full (awardState g m price w)
            then { awardState g m price w with draft_finished := true }
            else advance_nominator (awardState g m price w)) := by
  unfold close at h
  cases hm : g.current_pokemon with
  | none => rw [hm] at h; exact Except.noConfusion h
  | some m =>
    cases hb : g.current_bid with
    | none => rw [hm, hb] at h; exact Except.noConfusion h
    | some price =>
      cases hw : g.current_bidder with
      | none => rw [hm, hb, hw] at h; exact Except.noConfusion h
      | some w =>
        rw [hm, hb, hw] at h
        simp only at h
        split_ifs at h with h1 h2 h3
        all_goals
          (injection h with h5; subst h5;
           exact ⟨m, price, w, rfl, rfl, rfl, by omega, by omega, by simp [h3]⟩)

theorem list_getD_mem {α : Type} (l : List α) (n : Nat) (d : α) (h : n < l.length) :
    l.getD n d ∈ l := by
  induction l generalizing n with
  | nil => simp at h
  | cons a t ih =>
    cases n with
    | zero => simp
    | succ k =>
      simp only [List.getD_cons_succ]
      exact List.mem_cons_of_mem _ (ih k (by simpa using h))

theorem mem_draftedNames {g : Game} {q nm : String} (hq : q ∈ g.players)
    (hnm : nm ∈ (g.rosters q).map Mon.name) : nm ∈ draftedNames g := by
  unfold draftedNames
  exact List.mem_flatMap.mpr ⟨q, hq, hnm⟩

/-- Field-wise inversion of a successful `start_draft`. -/
theorem start_draft_ok_inv {g g' : Game} (h : start_draft g = Except.ok g') :
    2 ≤ g.lobby_players.length ∧
    g'.players = g.lobby_players.map Prod.fst ∧
    g'.budgets = (fun _ => g.starting_budget) ∧
    g'.rosters = (fun _ => ([] : List Mon)) ∧
    g'.current_nominator_index = 0 ∧
    g'.status = "draft" ∧
    g'.current_pokemon = none ∧ g'.current_bid = none ∧ g'.current_bidder = none ∧
    g'.starting_budget = g.starting_budget ∧ g'.max_slots = g.max_slots ∧
    g'.draft_finished = false ∧ g'.lobby_players = g.lobby_players ∧
    g'.player_icons =
      (fun n => (((g.lobby_players.find? (fun pr => pr.fst == n)).map Prod.snd).getD "")) ∧
    g'.log = [] := by
  unfold start_draft at h
  split_ifs at h with h1
  refine ⟨by omega, ?_⟩
  injection h with h5
  subst h5
  simp

/-- With positive fuel, `advance_loop` either returns its argument unchanged
(only possible with fuel 0) or an index below the number of players. -/
theorem advance_loop_fst_cases (g : Game) (hn : 0 < g.players.length) :
    ∀ fuel idx, (fuel = 0 ∧ (advance_loop g idx fuel).fst = idx) ∨
      (advance_loop g idx fuel).fst < g.players.length := by
  intro fuel
  induction fuel with
  | zero => intro idx; exact Or.inl ⟨rfl, rfl⟩
  | succ k ih =>
    intro idx
    simp only [advance_loop]
    split_ifs
    · exact Or.inr (Nat.mod_lt _ hn)
    · rcases ih ((idx + 1) % g.players.length) with ⟨hk0, heq⟩ | hlt
      · subst hk0
        simp only [advance_loop]
        exact Or.inr (Nat.mod_lt _ hn)
      · exact Or.inr hlt

/-- Indices produced by `advance_loop` with non-zero fuel stay below the number
of players. -/
theorem advance_loop_fst_lt (g : Game) (hn : 0 < g.players.length) (k : Nat) :
    ∀ idx, (advance_loop g idx (k + 1)).fst < g.players.length := by
  intro idx
  rcases advance_loop_fst_cases g hn (k + 1) idx with ⟨hk0, _⟩ | hlt
  · exact absurd hk0 (Nat.succ_ne_zero k)
  · exact hlt

theorem advance_idx_lt (g : Game) (hn : 0 < g.players.length) :
    (advance_nominator g).current_nominator_index < g.players.length := by
  obtain ⟨k, hk⟩ : ∃ k, g.players.length = k + 1 := ⟨g.players.length - 1, by omega⟩
  have h2 : (advance_loop g g.current_nominator_index g.players.length).fst <
      g.players.length := by
    conv_lhs => rw [hk]
    exact advance_loop_fst_lt g hn k _
  unfold advance_nominator
  by_cases hr : (advance_loop g g.current_nominator_index g.players.length).snd = true <;>
    simp [hr] <;> exact h2

/-- Turn-index component of the reachable-state invariant. -/
def IdxOK (g : Game) : Prop :=
  g.status ≠ "lobby" → 0 < g.players.length ∧ g.current_nominator_index < g.players.length

/-- Budget-conservation component: spent budget equals roster cost. -/
def ConserveOK (g : Game) : Prop :=
  g.status ≠ "lobby" → ∀ p, g.budgets p + rosterCost g p = g.starting_budget

/-- Auction-coherence component: the three auction fields are populated
together, the current bidder is a player, and the current bid is affordable. -/
def AuctionOK (g : Game) : Prop :=
  (g.current_pokemon = none ∧ g.current_bid = none ∧ g.current_bidder = none) ∨
  (∃ m b w, g.current_pokemon = some m ∧ g.current_bid = some b ∧ g.current_bidder = some w ∧
    w ∈ g.players ∧ b ≤ g.budgets w)

/-- No item name lies in the rosters of two distinct players. -/
def NoDouble (g : Game) : Prop :=
  ∀ p, p ∈ g.players → ∀ q, q ∈ g.players → p ≠ q →
    ∀ nm, nm ∈ (g.rosters p).map Mon.name → nm ∉ (g.rosters q).map Mon.name

/-- The item under auction is not already drafted. -/
def FreshOK (g : Game) : Prop :=
  ∀ m, g.current_pokemon = some m → m ∉ draftedNames g

/-- Reachable-state invariant; the last two components are established only in
catalog mode (non-empty pool of whitespace-clean names), because the free-text
nomination path performs no duplicate check. -/
def Inv (pool : List String) (g : Game) : Prop :=
  IdxOK g ∧ ConserveOK g ∧ AuctionOK g ∧
  (pool ≠ [] → (∀ s ∈ pool, pyStrip s = s) → FreshOK g ∧ NoDouble g)

theorem inv_create (pool : List String) (sb ms : Nat) : Inv pool (create_game sb ms) := by
  refine ⟨?_, ?_, ?_, ?_⟩
  · intro h; exact absurd rfl h
  · intro h; exact absurd rfl h
  · exact Or.inl ⟨rfl, rfl, rfl⟩
  · intro _ _
    refine ⟨?_, ?_⟩
    · intro m hm; exact Option.noConfusion hm
    · intro p hp q hq hpq nm hnm; exact absurd hp (List.not_mem_nil p)

/-- `advance_nominator` preserves the invariant. -/
theorem inv_advance {pool : List String} {g : Game}
    (hst : g.status ≠ "lobby") (h : Inv pool g) : Inv pool (advance_nominator g) := by
  obtain ⟨hidx, hcons, hauc, hfresh⟩ := h
  obtain ⟨hbud, hros, hpl, hs, hsb, hms, hpok, hbid, hbdr, hlob, hic, hlog⟩ := advance_frame g
  refine ⟨?_, ?_, ?_, ?_⟩
  · intro _
    rw [hpl]
    exact ⟨(hidx hst).1, advance_idx_lt g (hidx hst).1⟩
  · intro _ p
    unfold rosterCost
    rw [hbud, hros, hsb]
    exact hcons hst p
  · rcases hauc with ⟨ha, hb2, hc⟩ | ⟨m, b, w, hm, hb2, hw, hwm, hble⟩
    · exact Or.inl ⟨by rw [hpok, ha], by rw [hbid, hb2], by rw [hbdr, hc]⟩
    · exact Or.inr ⟨m, b, w, by rw [hpok, hm], by rw [hbid, hb2], by rw [hbdr, hw],
        by rw [hpl]; exact hwm, by rw [hbud]; exact hble⟩
  · intro hne htrim
    obtain ⟨hfr, hnd⟩ := hfresh hne htrim
    have hdn : draftedNames (advance_nominator g) = draftedNames g := by
      unfold draftedNames; rw [hpl, hros]
    refine ⟨?_, ?_⟩
    · intro m hm
      rw [hdn]
      rw [hpok] at hm
      exact hfr m hm
    · intro p hp q hq hpq nm hnm
      rw [hpl] at hp hq
      rw [hros] at hnm ⊢
      exact hnd p hp q hq hpq nm hnm

/-- Every step of the app preserves the invariant. -/
theorem inv_step {pool : List String} {g g' : Game}
    (hinv : Inv pool g) (hs : Step pool g g') : Inv pool g' := by
  obtain ⟨hidx, hcons, hauc, hfresh⟩ := hinv
  cases hs with
  | join name icon h1 h2 h3 =>
    exact ⟨hidx, hcons, hauc, hfresh⟩
  | start g2 h1 h2 =>
    obtain ⟨hlen, hpl, hbud, hros, hidx2, hst, hpok, hbid, hbdr, hsb, hms, hdf, hlob, hic,
      hlog⟩ := start_draft_ok_inv h2
    refine ⟨?_, ?_, ?_, ?_⟩
    · intro _
      rw [hpl, hidx2, List.length_map]
      omega
    · intro _ p
      unfold rosterCost
      rw [hbud, hros, hsb]
      simp
    · exact Or.inl ⟨hpok, hbid, hbdr⟩
    · intro _ _
      refine ⟨?_, ?_⟩
      · intro m hm
        rw [hpok] at hm
        exact Option.noConfusion hm
      · intro p hp q hq hpq nm hnm
        rw [hros] at hnm
        simp at hnm
  | skip h1 h2 h3 h4 =>
    exact inv_advance h1 ⟨hidx, hcons, hauc, hfresh⟩
  | nom g2 s h1 h2 h3 h4 h5 h6 =>
    obtain ⟨hne, hpok, hbid, hbdr, hbud, hros, hpl, hst, hsb, hms, hidx2, hdf, hlob, hic,
      hlog⟩ := nominate_ok_inv h6
    refine ⟨?_, ?_, ?_, ?_⟩
    · intro _
      rw [hpl, hidx2]
      exact hidx h1
    · intro _ p
      unfold rosterCost
      rw [hbud, hros, hsb]
      exact hcons h1 p
    · refine Or.inr ⟨_, _, _, hpok, hbid, hbdr, ?_, ?_⟩
      · rw [hpl]
        unfold currentNominator
        exact list_getD_mem _ _ _ (hidx h1).2
      · rw [hbud]
        exact Nat.min_le_right _ _
    · intro hne2 htrim
      obtain ⟨hfr, hnd⟩ := hfresh hne2 htrim
      have hdn : draftedNames g' = draftedNames g := by
        unfold draftedNames; rw [hpl, hros]
      refine ⟨?_, ?_⟩
      · intro m hm
        rw [hpok] at hm
        injection hm with hm2
        subst hm2
        rw [hdn]
        rcases h5 with hpe | ⟨hsp, hnd2⟩
        · exact absurd hpe hne2
        · rw [htrim s hsp]
          exact hnd2
      · intro p hp q hq hpq nm hnm
        rw [hpl] at hp hq
        rw [hros] at hnm ⊢
        exact hnd p hp q hq hpq nm hnm
  | raise g2 bidder amount h1 h2 h3 h4 =>
    obtain ⟨cb, hcb, hmin, hle, hmod, hbid2, hbdr2, hpok2, hbud, hros, hpl, hst, hsb, hms,
      hidx2, hdf, hlob, hic, hlog⟩ := bid_ok_inv h4
    refine ⟨?_, ?_, ?_, ?_⟩
    · intro _
      rw [hpl, hidx2]
      exact hidx h1
    · intro _ p
      unfold rosterCost
      rw [hbud, hros, hsb]
      exact hcons h1 p
    · rcases hauc with ⟨hpe, hbe, _⟩ | ⟨m, b, w, hm, _, _, _, _⟩
      · rw [hbe] at hcb
        exact Option.noConfusion hcb
      · exact Or.inr ⟨m, amount, bidder, by rw [hpok2]; exact hm, hbid2, hbdr2,
          by rw [hpl]; exact h3, by rw [hbud]; exact hle⟩
    · intro hne htrim
      obtain ⟨hfr, hnd⟩ := hfresh hne htrim
      have hdn : draftedNames g' = draftedNames g := by
        unfold draftedNames; rw [hpl, hros]
      refine ⟨?_, ?_⟩
      · intro m hm
        rw [hpok2] at hm
        rw [hdn]
        exact hfr m hm
      · intro p hp q hq hpq nm hnm
        rw [hpl] at hp hq
        rw [hros] at hnm ⊢
        exact hnd p hp q hq hpq nm hnm
  | closeA g2 h1 h2 h3 =>
    rcases close_ok_inv h3 with ⟨m, price, w, hm, hb, hw, hple, hcap, hg'⟩
    have hA : Inv pool (awardState g m price w) := by
      refine ⟨?_, ?_, ?_, ?_⟩
      · intro _
        exact hidx h1
      · intro _ p
        unfold rosterCost awardState upd
        simp only []
        by_cases hp : p = w
        · subst hp
          rw [if_pos rfl, if_pos rfl]
          have hc := hcons h1 p
          unfold rosterCost at hc
          simp only [List.map_append, List.sum_append, List.map_cons, List.map_nil,
            List.sum_cons, List.sum_nil]
          omega
        · rw [if_neg hp, if_neg hp]
          exact hcons h1 p
      · exact Or.inl ⟨rfl, rfl, rfl⟩
      · intro hne htrim
        obtain ⟨hfr, hnd⟩ := hfresh hne htrim
        have hmd : m ∉ draftedNames g := hfr m hm
        refine ⟨?_, ?_⟩
        · intro m2 hm2
          exact Option.noConfusion hm2
        · intro p hp q hq hpq nm hnm
          unfold awardState upd at hnm ⊢
          simp only [] at hnm ⊢
          by_cases hpw : p = w
          · rw [if_pos hpw] at hnm
            by_cases hqw : q = w
            · exact absurd (hpw.trans hqw.symm) hpq
            · rw [if_neg hqw]
              rw [List.map_append] at hnm
              rcases List.mem_append.mp hnm with hin | hin
              · rw [← hpw] at hin
                exact hnd p hp q hq hpq nm hin
              · simp only [List.map_cons, List.map_nil, List.mem_singleton] at hin
                subst hin
                intro hcontra
                exact hmd (mem_draftedNames hq hcontra)
          · rw [if_neg hpw] at hnm
            by_cases hqw : q = w
            · rw [if_pos hqw]
              rw [List.map_append]
              intro hcontra
              rcases List.mem_append.mp hcontra with hin | hin
              · rw [← hqw] at hin
                exact hnd p hp q hq hpq nm hnm hin
              · simp only [List.map_cons, List.map_nil, List.mem_singleton] at hin
                subst hin
                exact hmd (mem_draftedNames hp hnm)
            · rw [if_neg hqw]
              exact hnd p hp q hq hpq nm hnm
    by_cases hf : everyone_full (awardState g m price w) = true
    · rw [if_pos hf] at hg'
      subst hg'
      exact hA
    · rw [if_neg hf] at hg'
      subst hg'
      exact inv_advance h1 hA

/-- Every reachable state satisfies the invariant. -/
theorem reachable_inv {pool : List String} {g : Game} (h : Reachable pool g) : Inv pool g := by
  induction h with
  | init sb ms => exact inv_create pool sb ms
  | step hr hs ih => exact inv_step ih hs

/-- Rendering of the spec's sentence for `advance` (spec §4.3): scan forward
from a given start position, wrapping modulo the number of participants, for a
bounded number of steps, and return the index of the first eligible
participant, if any. -/
def scanFrom (g : Game) : Nat → Nat → Option Nat
  | _, 0 => none
  | start, steps + 1 =>
    let i := start % g.players.length
    if eligibleB g (g.players.getD i "") then some i
    else scanFrom g (start + 1) steps

/-- The spec's scan for `advance`: from `turnIndex + 1`, for up to
`len(participants)` steps. -/
def specScan (g : Game) : Option Nat :=
  scanFrom g (g.current_nominator_index + 1) g.players.length

theorem scanFrom_congr (g : Game) :
    ∀ steps a b, a % g.players.length = b % g.players.length →
      scanFrom g a steps = scanFrom g b steps := by
  intro steps
  induction steps with
  | zero => intro a b h; rfl
  | succ k ih =>
    intro a b h
    simp only [scanFrom]
    rw [h]
    split_ifs
    · rfl
    · exact ih (a + 1) (b + 1) (by rw [Nat.add_mod a 1, Nat.add_mod b 1, h])

theorem advance_loop_of_scan_some (g : Game) :
    ∀ fuel idx i, scanFrom g (idx + 1) fuel = some i →
      advance_loop g idx fuel = (i, true) := by
  intro fuel
  induction fuel with
  | zero => intro idx i h; exact Option.noConfusion h
  | succ k ih =>
    intro idx i h
    simp only [scanFrom] at h
    simp only [advance_loop]
    split_ifs at h with he
    · injection h with h2
      rw [if_pos he, h2]
    · rw [if_neg he]
      exact ih _ i (by
        rw [scanFrom_congr g k ((idx + 1) % g.players.length + 1) (idx + 1 + 1)
          (by rw [Nat.mod_add_mod])]
        exact h)

theorem advance_loop_of_scan_none (g : Game) :
    ∀ fuel idx, scanFrom g (idx + 1) fuel = none →
      (advance_loop g idx fuel).snd = false := by
  intro fuel
  induction fuel with
  | zero => intro idx h; rfl
  | succ k ih =>
    intro idx h
    simp only [scanFrom] at h
    simp only [advance_loop]
    split_ifs at h with he
    rw [if_neg he]
    exact ih _ (by
      rw [scanFrom_congr g k ((idx + 1) % g.players.length + 1) (idx + 1 + 1)
        (by rw [Nat.mod_add_mod])]
      exact h)

/-- Chains of successive successful `bid` calls. -/
inductive BidChain : Game → Game → Prop where
  | refl (g : Game) : BidChain g g
  | tail {g g1 g2 : Game} : BidChain g g1 → ∀ (w : String) (a : Nat),
      bid g1 w a = Except.ok g2 → BidChain g g2

theorem bidChain_mono {g g' : Game} (h : BidChain g g') :
    ∀ ob, g.current_bid = some ob →
      ∃ cb, g'.current_bid = some cb ∧ ob ≤ cb ∧ cb % 25 = ob % 25 ∧
        g'.current_pokemon = g.current_pokemon := by
  induction h with
  | refl => intro ob hob; exact ⟨ob, hob, le_refl ob, rfl, rfl⟩
  | tail h w a hb ih =>
    intro ob hob
    obtain ⟨cb, hcb, hle, hmod, hpk⟩ := ih ob hob
    obtain ⟨cb2, hcb2, hmin, hle2, hmod2, hbid2, hbdr2, hpok2, _⟩ := bid_ok_inv hb
    rw [hcb] at hcb2
    injection hcb2 with he
    subst he
    refine ⟨a, hbid2, by omega, by omega, by rw [hpok2, hpk]⟩

/-- A concrete run, used for witnesses and the free-text counterexample:
budget 1000, 2 slots, players A and B; A wins "x" at 50, then (free-text mode)
B nominates the already-awarded "x" and wins it too. -/
def g0 : Game := create_game 1000 2

def g1 : Game := join_game g0 "A" "i1"

def g2 : Game := join_game g1 "B" "i2"

def g3 : Game := exOk g2 (start_draft g2)

def g4 : Game := exOk g3 (nominate g3 "x")

def g5 : Game := exOk g4 (close g4)

def g6 : Game := exOk g5 (nominate g5 "x")

def g7 : Game := exOk g6 (close g6)

theorem reach_g3 (pool : List String) : Reachable pool g3 := by
  have r0 : Reachable pool g0 := Reachable.init 1000 2
  have r1 : Reachable pool g1 :=
    r0.step (Step.join g0 "A" "i1" rfl (by decide) (by decide))
  have r2 : Reachable pool g2 :=
    r1.step (Step.join g1 "B" "i2" rfl (by decide) (by decide))
  exact r2.step (Step.start g2 g3 rfl rfl)

theorem reach_g4_free : Reachable ([] : List String) g4 :=
  (reach_g3 []).step (Step.nom g3 g4 "x" (by decide) rfl rfl rfl (Or.inl rfl) rfl)

theorem reach_g5_free : Reachable ([] : List String) g5 :=
  reach_g4_free.step (Step.closeA g4 g5 (by decide) rfl rfl)

theorem reach_g6_free : Reachable ([] : List String) g6 :=
  reach_g5_free.step (Step.nom g5 g6 "x" (by decide) rfl rfl rfl (Or.inl rfl) rfl)

theorem reach_g7_free : Reachable ([] : List String) g7 :=
  reach_g6_free.step (Step.closeA g6 g7 (by decide) rfl rfl)

/-- A two-item catalog containing the nominated "x". -/
def cpool : List String := ["x", "y"]

theorem reach_g4_cat : Reachable cpool g4 :=
  (reach_g3 cpool).step
    (Step.nom g3 g4 "x" (by decide) rfl rfl rfl (Or.inr ⟨by decide, by decide⟩) rfl)

theorem reach_g5_cat : Reachable cpool g5 :=
  reach_g4_cat.step (Step.closeA g4 g5 (by decide) rfl rfl)

/-- State after B successfully bids 75 on the open auction of `g4`. -/
def gB : Game := exOk g4 (bid g4 "B" 75)

/-- Full field accounting of a successful `close`. -/
theorem close_ok_fields {g g' : Game} {m : String} {price : Nat} {w : String}
    (hm : g.current_pokemon = some m) (hb : g.current_bid = some price)
    (hw : g.current_bidder = some w) (h : close g = Except.ok g') :
    price ≤ g.budgets w ∧ (g.rosters w).length < g.max_slots ∧
    g'.budgets w = g.budgets w - price ∧
    g'.rosters w = g.rosters w ++ [{ name := m, price := price }] ∧
    (∀ p, p ≠ w → g'.budgets p = g.budgets p ∧ g'.rosters p = g.rosters p) ∧
    g'.players = g.players ∧ g'.player_icons = g.player_icons ∧
    g'.max_slots = g.max_slots ∧ g'.starting_budget = g.starting_budget ∧
    g'.status = g.status ∧ g'.lobby_players = g.lobby_players ∧
    g'.current_pokemon = none ∧ g'.current_bid = none ∧ g'.current_bidder = none ∧
    (everyone_full (awardState g m price w) = true →
      g'.current_nominator_index = g.current_nominator_index) := by
  rcases close_ok_inv h with ⟨m2, price2, w2, hm2, hb2, hw2, hple, hcap, hg'⟩
  rw [hm] at hm2
  injection hm2 with e1
  subst e1
  rw [hb] at hb2
  injection hb2 with e2
  subst e2
  rw [hw] at hw2
  injection hw2 with e3
  subst e3
  subst hg'
  by_cases hf : everyone_full (awardState g m price w) = true
  · rw [if_pos hf]
    refine ⟨hple, hcap, upd_same g.budgets w _, upd_same g.rosters w _, ?_,
      rfl, rfl, rfl, rfl, rfl, rfl, rfl, rfl, rfl, fun _ => rfl⟩
    intro p hp
    exact ⟨upd_ne g.budgets w _ p hp, upd_ne g.rosters w _ p hp⟩
  · rw [if_neg hf]
    obtain ⟨hbud, hros, hpl, hst, hsb, hms, hpok, hbid, hbdr, hlob, hic, hlog⟩ :=
      advance_frame (awardState g m price w)
    refine ⟨hple, hcap, ?_, ?_, ?_, ?_, ?_, ?_, ?_, ?_, ?_, ?_, ?_, ?_, ?_⟩
    · rw [hbud]
      exact upd_same g.budgets w _
    · rw [hros]
      exact upd_same g.rosters w _
    · intro p hp
      rw [hbud, hros]
      exact ⟨upd_ne g.budgets w _ p hp, upd_ne g.rosters w _ p hp⟩
    · rw [hpl]; rfl
    · rw [hic]; rfl
    · rw [hms]; rfl
    · rw [hsb]; rfl
    · rw [hst]; rfl
    · rw [hlob]; rfl
    · rw [hpok]; rfl
    · rw [hbid]; rfl
    · rw [hbdr]; rfl
    · intro hc
      exact absurd hc hf

/-- Claim C1: budget conservation.  In every reachable non-lobby state, each
participant's spent budget (`starting_budget - budgets[p]`) equals the summed
prices of their roster; `start_draft` initializes every budget to the starting
budget with an empty roster; a successful close deducts exactly the winning
price and appends exactly the one `{name, price}` entry for the winner. -/
theorem c1_conservation :
    (∀ (pool : List String) (g : Game), Reachable pool g → g.status ≠ "lobby" →
      ∀ p, g.budgets p + rosterCost g p = g.starting_budget ∧
        g.starting_budget - g.budgets p = rosterCost g p) ∧
    (∀ g g' : Game, start_draft g = Except.ok g' →
      ∀ p, g'.budgets p = g.starting_budget ∧ g'.rosters p = []) ∧
    (∀ (g g' : Game) (m : String) (price : Nat) (w : String),
      g.current_pokemon = some m → g.current_bid = some price → g.current_bidder = some w →
      close g = Except.ok g' →
      g'.budgets w + price = g.budgets w ∧
        g'.rosters w = g.rosters w ++ [{ name := m, price := price }]) := by
  refine ⟨?_, ?_, ?_⟩
  · intro pool g hr hst p
    have h := (reachable_inv hr).2.1 hst p
    exact ⟨h, by omega⟩
  · intro g g' h p
    obtain ⟨_, _, hbud, hros, _⟩ := start_draft_ok_inv h
    rw [hbud, hros]
    exact ⟨rfl, rfl⟩
  · intro g g' m price w hm hb hw h
    obtain ⟨hple, _, hbw, hrw, _⟩ := close_ok_fields hm hb hw h
    refine ⟨?_, hrw⟩
    rw [hbw]
    omega

/-- Claim C1 witness: in the concrete reachable draft state `g3` budgets are
conserved, and the close from `g4` to `g5` deducts exactly the price 50. -/
theorem c1_witness :
    g3.budgets "A" + rosterCost g3 "A" = g3.starting_budget ∧
    g5.budgets "A" + 50 = g4.budgets "A" :=
  ⟨(c1_conservation.1 [] g3 (reach_g3 []) (by decide) "A").1,
    (c1_conservation.2.2 g4 g5 "x" 50 "A" rfl rfl rfl rfl).1⟩

/-- Claim C2 counterexample: with the catalog absent (free-text mode,
`pool = []`), the reachable state `g7` has the item name "x" in the rosters of
both A and B — the code never rejects an already-awarded name in free-text
mode (the nomination of the already-drafted "x" at `g5` succeeds rather than
failing), so the claim as stated is false. -/
theorem c2_counterexample :
    Reachable ([] : List String) g7 ∧
    "A" ∈ g7.players ∧ "B" ∈ g7.players ∧ "A" ≠ "B" ∧
    "x" ∈ (g7.rosters "A").map Mon.name ∧ "x" ∈ (g7.rosters "B").map Mon.name ∧
    "x" ∈ draftedNames g5 ∧ exceptOk (nominate g5 "x") = true :=
  ⟨reach_g7_free, by decide, by decide, by decide, by decide, by decide, by decide, rfl⟩

/-- Claim C2 (amended): in catalog-constrained mode (a non-empty pool of
whitespace-clean names) an already-drafted item is never offered for
nomination, so no item name ever appears in the rosters of two distinct
participants; in free-text mode the code performs no already-awarded check and
a duplicate award is reachable. -/
theorem c2_no_double_award_catalog (pool : List String) (g : Game)
    (hpool : pool ≠ []) (htrim : ∀ s ∈ pool, pyStrip s = s)
    (hr : Reachable pool g) :
    ∀ p q, p ∈ g.players → q ∈ g.players → p ≠ q →
      ∀ nm, nm ∈ (g.rosters p).map Mon.name → nm ∉ (g.rosters q).map Mon.name := by
  intro p q hp hq hpq nm hnm
  exact ((reachable_inv hr).2.2.2 hpool htrim).2 p hp q hq hpq nm hnm

/-- Claim C2 witness: in the catalog-mode run reaching `g5`, "x" sits in A's
roster and (by the amended theorem) not in B's. -/
theorem c2_witness :
    cpool ≠ [] ∧ "A" ∈ g5.players ∧ "B" ∈ g5.players ∧
    "x" ∈ (g5.rosters "A").map Mon.name ∧ "x" ∉ (g5.rosters "B").map Mon.name :=
  ⟨by decide, by decide, by decide, by decide,
    c2_no_double_award_catalog cpool g5 (by decide) (by decide) reach_g5_cat "A" "B"
      (by decide) (by decide) (by decide) "x" (by decide)⟩

/-- Claim C3: on a Draft-status session with participants, `advance_nominator`
scans forward from `turnIndex + 1` wrapping modulo the number of participants
for at most that many steps (`specScan` renders the spec's scan, with the
eligibility predicate roster-length < maxSlots and budget ≥ 50); it sets the
turn index to the first eligible index, and when no participant is eligible
after a full cycle it marks the session finished (`draft_finished`, the code's
representation of the Finished status). -/
theorem c3_advance (g : Game) (hdraft : g.status = "draft") (hne : g.players ≠ []) :
    (∀ i, specScan g = some i →
      advance_nominator g = { g with current_nominator_index := i }) ∧
    (specScan g = none → (advance_nominator g).draft_finished = true) := by
  constructor
  · intro i h
    have h2 := advance_loop_of_scan_some g g.players.length g.current_nominator_index i h
    unfold advance_nominator
    rw [h2]
    rfl
  · intro h
    have h2 := advance_loop_of_scan_none g g.players.length g.current_nominator_index h
    unfold advance_nominator
    simp [h2]

/-- Claim C3 witness: from `g5` (turn index 1, players A and B), the scan finds
index 0 (A is eligible) and `advance_nominator` sets the turn index to 0. -/
theorem c3_witness :
    g5.status = "draft" ∧ g5.players ≠ [] ∧ specScan g5 = some 0 ∧
    advance_nominator g5 = { g5 with current_nominator_index := 0 } :=
  ⟨rfl, by decide, rfl, (c3_advance g5 rfl (by decide)).1 0 rfl⟩

/-- Claim C4: with an active auction, `close` fails with `BudgetViolation` when
the winner cannot afford the current bid and with `CapacityViolation` when the
winner's roster is full (failures return no state: the session is unchanged);
on success it deducts the price, appends the item, clears the auction, and on
that same call either marks the draft finished when everyone's roster is at
capacity or advances the turn. -/
theorem c4_close (g : Game) (m : String) (price : Nat) (w : String)
    (hm : g.current_pokemon = some m) (hb : g.current_bid = some price)
    (hw : g.current_bidder = some w) :
    (g.budgets w < price → close g = Except.error DraftError.BudgetViolation) ∧
    (price ≤ g.budgets w → g.max_slots ≤ (g.rosters w).length →
      close g = Except.error DraftError.CapacityViolation) ∧
    (price ≤ g.budgets w → (g.rosters w).length < g.max_slots →
      ((awardState g m price w).budgets w + price = g.budgets w ∧
       (awardState g m price w).rosters w = g.rosters w ++ [{ name := m, price := price }] ∧
       (awardState g m price w).current_pokemon = none ∧
       (awardState g m price w).current_bid = none ∧
       (awardState g m price w).current_bidder = none) ∧
      (everyone_full (awardState g m price w) = true ↔
        ∀ p ∈ g.players, g.max_slots ≤ ((awardState g m price w).rosters p).length) ∧
      (everyone_full (awardState g m price w) = true →
        close g = Except.ok { awardState g m price w with draft_finished := true }) ∧
      (everyone_full (awardState g m price w) = false →
        close g = Except.ok (advance_nominator (awardState g m price w)))) := by
  have hclose : close g =
      (if g.budgets w < price then Except.error DraftError.BudgetViolation
       else if g.max_slots ≤ (g.rosters w).length then
         Except.error DraftError.CapacityViolation
       else if everyone_full (awardState g m price w) = true then
         Except.ok { awardState g m price w with draft_finished := true }
       else Except.ok (advance_nominator (awardState g m price w))) := by
    unfold close
    rw [hm, hb, hw]
  refine ⟨?_, ?_, ?_⟩
  · intro h1
    rw [hclose, if_pos h1]
  · intro h1 h2
    rw [hclose, if_neg (by omega), if_pos h2]
  · intro h1 h2
    refine ⟨⟨?_, ?_, rfl, rfl, rfl⟩, ?_, ?_, ?_⟩
    · show upd g.budgets w (g.budgets w - price) w + price = g.budgets w
      rw [upd_same]
      omega
    · show upd g.rosters w (g.rosters w ++ [{ name := m, price := price }]) w =
        g.rosters w ++ [{ name := m, price := price }]
      exact upd_same _ _ _
    · simp only [everyone_full, List.all_eq_true, decide_eq_true_eq]
      exact Iff.rfl
    · intro hf
      rw [hclose, if_neg (by omega), if_neg (by omega), if_pos hf]
    · intro hf
      rw [hclose, if_neg (by omega), if_neg (by omega), if_neg (by rw [hf]; exact Bool.false_ne_true)]

/-- Claim C4 witness: closing the concrete auction `g4` succeeds (everyone is
not yet full, so the turn advances), while a doctored current bid of 2000
triggers `BudgetViolation`. -/
theorem c4_witness :
    close g4 = Except.ok (advance_nominator (awardState g4 "x" 50 "A")) ∧
    close { g4 with current_bid := some 2000 } = Except.error DraftError.BudgetViolation :=
  ⟨((c4_close g4 "x" 50 "A" rfl rfl rfl).2.2 (by decide) (by decide)).2.2.2 rfl,
    (c4_close { g4 with current_bid := some 2000 } "x" 2000 "A" rfl rfl rfl).1 (by decide)⟩

/-- Claim C5: within one auction the current bid is non-decreasing across
successive successful `bid` calls; every accepted amount is at least the
previous current bid plus 25 and congruent to it (hence to the opening bid,
along any chain of successful bids) modulo 25. -/
theorem c5_bid_monotonicity :
    (∀ (g : Game) (w : String) (a : Nat) (g' : Game) (cb : Nat),
      bid g w a = Except.ok g' → g.current_bid = some cb →
      g'.current_bid = some a ∧ g'.current_pokemon = g.current_pokemon ∧
      cb + 25 ≤ a ∧ a % 25 = cb % 25) ∧
    (∀ (g g' : Game) (ob : Nat), BidChain g g' → g.current_bid = some ob →
      ∃ cb, g'.current_bid = some cb ∧ ob ≤ cb ∧ cb % 25 = ob % 25) := by
  constructor
  · intro g w a g' cb hok hcb
    obtain ⟨cb2, hcb2, hmin, hle, hmod, hbid2, hbdr2, hpok2, _⟩ := bid_ok_inv hok
    rw [hcb] at hcb2
    injection hcb2 with he
    subst he
    exact ⟨hbid2, hpok2, by omega, by omega⟩
  · intro g g' ob hchain hob
    obtain ⟨cb, hcb, hle, hmod, _⟩ := bidChain_mono hchain ob hob
    exact ⟨cb, hcb, hle, hmod⟩

/-- Claim C5 witness: B's bid of 75 over the opening bid 50 of `g4` is
accepted, exceeds 50 by the 25 raise increment, and is 25-aligned with it. -/
theorem c5_witness :
    bid g4 "B" 75 = Except.ok gB ∧ g4.current_bid = some 50 ∧
    gB.current_bid = some 75 ∧ 50 + 25 ≤ 75 ∧ 75 % 25 = 50 % 25 :=
  ⟨rfl, rfl, (c5_bid_monotonicity.1 g4 "B" 75 gB 50 rfl rfl).1,
    (c5_bid_monotonicity.1 g4 "B" 75 gB 50 rfl rfl).2.2.1,
    (c5_bid_monotonicity.1 g4 "B" 75 gB 50 rfl rfl).2.2.2⟩

/-- Claim C6: in every reachable state with an active auction the current bid
is at most the remaining budget of the current bidder (invariant I3),
established by the opening bid of a nomination and preserved by every
successful bid and by close. -/
theorem c6_bid_affordable (pool : List String) (g : Game) (b : Nat) (w : String)
    (hr : Reachable pool g) (hb : g.current_bid = some b) (hw : g.current_bidder = some w) :
    b ≤ g.budgets w := by
  rcases (reachable_inv hr).2.2.1 with ⟨_, hbe, _⟩ | ⟨m, b2, w2, hm2, hb2, hw2, hwm, hble⟩
  · rw [hb] at hbe
    exact Option.noConfusion hbe
  · rw [hb] at hb2
    injection hb2 with e
    subst e
    rw [hw] at hw2
    injection hw2 with e2
    subst e2
    exact hble

/-- Claim C6 witness: in the reachable auction state `g4` the current bid 50
does not exceed bidder A's remaining budget. -/
theorem c6_witness :
    g4.current_bid = some 50 ∧ g4.current_bidder = some "A" ∧ 50 ≤ g4.budgets "A" :=
  ⟨rfl, rfl, c6_bid_affordable [] g4 50 "A" reach_g4_free rfl rfl⟩

/-- Claim C7: on a Lobby-status session, `start_draft` fails with
`InsufficientPlayers` (returning no state change) when fewer than 2 players
registered; otherwise it freezes the participants as the lobby names in join
order, copies the icons, gives every participant the starting budget and an
empty roster, sets the turn index to 0 and the status to draft. -/
theorem c7_start_draft (g : Game) (hs : g.status = "lobby") :
    (g.lobby_players.length < 2 →
      start_draft g = Except.error DraftError.InsufficientPlayers) ∧
    (2 ≤ g.lobby_players.length → ∃ g', start_draft g = Except.ok g' ∧
      g'.players = g.lobby_players.map Prod.fst ∧
      (∀ n ic, g.lobby_players.find? (fun pr => pr.fst == n) = some (n, ic) →
        g'.player_icons n = ic) ∧
      (∀ p, g'.budgets p = g.starting_budget ∧ g'.rosters p = []) ∧
      g'.current_nominator_index = 0 ∧ g'.status = "draft" ∧
      g'.starting_budget = g.starting_budget ∧ g'.max_slots = g.max_slots) := by
  constructor
  · intro h
    unfold start_draft
    rw [if_pos h]
  · intro h
    have hok : ∃ g', start_draft g = Except.ok g' := by
      unfold start_draft
      rw [if_neg (by omega)]
      exact ⟨_, rfl⟩
    obtain ⟨g', hg'⟩ := hok
    obtain ⟨_, hpl, hbud, hros, hidx2, hst, _, _, _, hsb, hms, _, _, hic, _⟩ :=
      start_draft_ok_inv hg'
    refine ⟨g', hg', hpl, ?_, ?_, hidx2, hst, hsb, hms⟩
    · intro n ic hfind
      simp [hic, hfind]
    · intro p
      rw [hbud, hros]
      exact ⟨rfl, rfl⟩

/-- Claim C7 witness: the one-player lobby `g1` cannot start
(`InsufficientPlayers`), while the two-player lobby `g2` starts into `g3`. -/
theorem c7_witness :
    g1.status = "lobby" ∧ g1.lobby_players.length < 2 ∧
    start_draft g1 = Except.error DraftError.InsufficientPlayers ∧
    start_draft g2 = Except.ok g3 :=
  ⟨rfl, by decide, (c7_start_draft g1 rfl).1 (by decide), rfl⟩

/-- Claim C8: `nominate`, invoked with no active auction and an eligible
current nominator, fails with `EmptyName` (no state produced) when the entered
name strips to the empty string, and otherwise opens the auction with current
bid `min(50, budgets[nominator])`, the nominator as current bidder, and exactly
one appended log entry, leaving budgets and rosters unchanged. -/
theorem c8_nominate (g : Game) (s : String)
    (hpoke : g.current_pokemon = none)
    (helig : eligibleB g (currentNominator g) = true) :
    (pyStrip s = "" → nominate g s = Except.error DraftError.EmptyName) ∧
    (pyStrip s ≠ "" → ∃ g', nominate g s = Except.ok g' ∧
      g'.current_pokemon = some (pyStrip s) ∧
      g'.current_bid = some (min 50 (g.budgets (currentNominator g))) ∧
      g'.current_bidder = some (currentNominator g) ∧
      g'.log.length = g.log.length + 1 ∧
      g'.budgets = g.budgets ∧ g'.rosters = g.rosters) := by
  constructor
  · intro h
    unfold nominate
    rw [if_pos h]
  · intro h
    have hok : ∃ g', nominate g s = Except.ok g' := by
      unfold nominate
      rw [if_neg h]
      exact ⟨_, rfl⟩
    obtain ⟨g', hg'⟩ := hok
    obtain ⟨_, hpok2, hbid2, hbdr2, hbud2, hros2, _, _, _, _, _, _, _, _, hlog2⟩ :=
      nominate_ok_inv hg'
    exact ⟨g', hg', hpok2, hbid2, hbdr2, hlog2, hbud2, hros2⟩

/-- Claim C8 witness: nominating a whitespace-only name at `g3` fails with
`EmptyName`, and nominating "x" succeeds. -/
theorem c8_witness :
    g3.current_pokemon = none ∧ eligibleB g3 (currentNominator g3) = true ∧
    pyStrip " " = "" ∧ nominate g3 " " = Except.error DraftError.EmptyName :=
  ⟨rfl, rfl, rfl, (c8_nominate g3 " " rfl rfl).1 rfl⟩

/-- Claim C9: any bid amount strictly above the bidder's remaining budget is
rejected as `InsufficientFunds` (producing no state change), independent of the
minimum-raise and increment conditions — in particular a bidder with budget 40
cannot bid 50 onto a current bid of 20. -/
theorem c9_insufficient_funds (g : Game) (w : String) (amount cb : Nat)
    (hcb : g.current_bid = some cb) (hgt : g.budgets w < amount) :
    bid g w amount = Except.error DraftError.InsufficientFunds := by
  have hbid2 : bid g w amount =
      (if g.budgets w < cb + 25 then Except.error DraftError.InsufficientFunds
       else if amount < cb + 25 then Except.error DraftError.BelowMinimumRaise
       else if g.budgets w < amount then Except.error DraftError.InsufficientFunds
       else if (amount - (cb + 25)) % 25 ≠ 0 then Except.error DraftError.BadIncrement
       else Except.ok { g with
                          current_bid := some amount
                          current_bidder := some w
                          log := g.log ++
                            [bidLog (g.player_icons w) w amount (g.current_pokemon.getD "")] }) := by
    unfold bid
    rw [hcb]
  by_cases h1 : g.budgets w < cb + 25
  · rw [hbid2, if_pos h1]
  · rw [hbid2, if_neg h1, if_neg (by omega), if_pos (by omega)]

/-- State of the spec's concrete scenario for C9: current bid 20, the bidder's
remaining budget 40 (doctored onto the reachable auction `g4`). -/
def gScen : Game := { g4 with current_bid := some 20, budgets := fun _ => 40 }

/-- Claim C9 witness: with current bid 20 and budget 40, a bid of 50 fails with
`InsufficientFunds`. -/
theorem c9_witness :
    gScen.current_bid = some 20 ∧ gScen.budgets "B" = 40 ∧
    bid gScen "B" 50 = Except.error DraftError.InsufficientFunds :=
  ⟨rfl, rfl, c9_insufficient_funds gScen "B" 50 20 rfl (by decide)⟩

/-- Claim C10: a successful close touches, among per-participant data, only the
winner's budget and roster: every other participant keeps budget, roster and
icon; the participants list and their order, maxSlots, and startingBudget are
unchanged; and the award itself leaves the turn index alone (it moves only
through the subsequent `advance_nominator` call, which is skipped when the
close finishes the draft). -/
theorem c10_close_frame (g g' : Game) (m : String) (price : Nat) (w : String)
    (hm : g.current_pokemon = some m) (hb : g.current_bid = some price)
    (hw : g.current_bidder = some w) (hok : close g = Except.ok g') :
    (∀ p, p ≠ w → g'.budgets p = g.budgets p ∧ g'.rosters p = g.rosters p) ∧
    g'.player_icons = g.player_icons ∧ g'.players = g.players ∧
    g'.max_slots = g.max_slots ∧ g'.starting_budget = g.starting_budget ∧
    g'.status = g.status ∧ g'.lobby_players = g.lobby_players ∧
    (everyone_full (awardState g m price w) = true →
      g'.current_nominator_index = g.current_nominator_index) := by
  obtain ⟨_, _, _, _, hframe, hpl, hic, hms, hsb, hst, hlob, _, _, _, hidx⟩ :=
    close_ok_fields hm hb hw hok
  exact ⟨hframe, hic, hpl, hms, hsb, hst, hlob, hidx⟩

/-- Claim C10 witness: in the concrete close from `g4` to `g5` (A wins "x"),
B's budget and roster are unchanged. -/
theorem c10_witness :
    g5.budgets "B" = g4.budgets "B" ∧ g5.rosters "B" = g4.rosters "B" :=
  (c10_close_frame g4 g5 "x" 50 "A" rfl rfl rfl rfl).1 "B" (by decide)

end PokemonDraft
